import Mathlib

/-!
Verification of the momentum backtest engine of the `dax-momentum`
repository.

The engine is `momentum_backtest` in `src/utils.py`; the standalone script
`src/backtest.py` duplicates the same pipeline inline with a fixed lookback
of 3 and a fee of one basis point, and `src/cli_backtest.py` wraps the
engine behind an argument check.

Modelling conventions: prices, returns, positions, strategy returns and
equity are exact rationals (`ℚ`), mirroring the arithmetic the pandas code
performs; the two annualised metrics (Sharpe, CAGR) live in `ℝ` because the
source applies a square root and a fractional power.  Pandas series of
length `n` are modelled as lists of length `n`; `NaN` cells produced by
`pct_change`, `shift`, `diff` and under-filled `rolling` windows are
resolved exactly where the source resolves them (`fillna(0)`, and the fact
that `NaN > 0` is `False` inside the signal comparison).
-/

namespace DaxMomentum

/-- Error taxonomy of `momentum_backtest` (`src/utils.py` raises
`ValueError` with two distinct messages; the spec names them
`InvalidParameter` and `InsufficientData`). -/
inductive BTError where
  | invalidParameter : String → BTError
  | insufficientData : String → BTError
deriving DecidableEq, Repr

/-- Results bundle returned by the engine (`src/utils.py`, the dict built
at the end of `momentum_backtest`). -/
structure Results where
  cagr : ℝ
  sharpe : ℝ
  max_dd : ℚ
  returns : List ℚ
  equity : List ℚ

/-- `prices.pct_change().fillna(0)` (`src/utils.py` line 30): entry 0 is 0,
entry `t` is `(p[t] - p[t-1]) / p[t-1]`. -/
def pctChange0 (p : List ℚ) : List ℚ :=
  (List.range p.length).map (fun t =>
    if t = 0 then 0 else (p.getD t 0 - p.getD (t - 1) 0) / p.getD (t - 1) 0)

/-- `(ret.rolling(lookback).sum() > 0).astype(int)` (`src/utils.py` line
33): the trailing window of exactly `lb` entries ending at `t` is summed
once the window is full (`lb ≤ t + 1`); an under-filled window is `NaN`,
and `NaN > 0` is `False`. -/
def rollingSignal (lb : ℕ) (ret : List ℚ) : List Bool :=
  (List.range ret.length).map (fun t =>
    if lb ≤ t + 1 then decide (0 < ((ret.drop (t + 1 - lb)).take lb).sum)
    else false)

/-- `signal.shift(1).fillna(0)` (`src/utils.py` line 36): entry 0 is 0,
entry `t` is the signal of period `t - 1` cast to a number. -/
def positionOf (sig : List Bool) : List ℚ :=
  (List.range sig.length).map (fun t =>
    if t = 0 then 0 else if sig.getD (t - 1) false then 1 else 0)

/-- The position series of the engine as a function of the raw prices. -/
def positionsOf (p : List ℚ) (lb : ℕ) : List ℚ :=
  positionOf (rollingSignal lb (pctChange0 p))

/-- `pos * ret - fee * pos.diff().abs().fillna(0)` (`src/utils.py` line
39): the first diff cell is `NaN`, hence costs nothing. -/
def strategyReturns (p : List ℚ) (lb : ℕ) (fee : ℚ) : List ℚ :=
  (List.range p.length).map (fun t =>
    (positionsOf p lb).getD t 0 * (pctChange0 p).getD t 0 -
      fee * (if t = 0 then 0
             else |(positionsOf p lb).getD t 0 - (positionsOf p lb).getD (t - 1) 0|))

/-- `(1 + strategy_ret).cumprod()` (`src/utils.py` line 51): entry `t` is
the product of `1 + strategy_ret[i]` over `i ≤ t`. -/
def equitySeries (p : List ℚ) (lb : ℕ) (fee : ℚ) : List ℚ :=
  (List.range (strategyReturns p lb fee).length).map (fun t =>
    (((strategyReturns p lb fee).take (t + 1)).map (fun x => 1 + x)).prod)

/-- Minimum of a list (`.min()` of a pandas series; the engine only applies
it to non-empty series, the `[]` case is junk). -/
def listMin : List ℚ → ℚ
  | [] => 0
  | x :: xs => xs.foldl min x

/-- Maximum of a list (used for the running maximum `.cummax()`). -/
def listMax : List ℚ → ℚ
  | [] => 0
  | x :: xs => xs.foldl max x

/-- `equity / equity.cummax() - 1` (`src/utils.py` line 60): entry `t` is
the equity at `t` divided by the running maximum of the equity up to `t`,
minus one. -/
def drawdowns (p : List ℚ) (lb : ℕ) (fee : ℚ) : List ℚ :=
  (List.range (equitySeries p lb fee).length).map (fun t =>
    (equitySeries p lb fee).getD t 0 /
      listMax ((equitySeries p lb fee).take (t + 1)) - 1)

/-- `(equity / equity.cummax() - 1).min()` (`src/utils.py` line 60). -/
def maxDD (p : List ℚ) (lb : ℕ) (fee : ℚ) : ℚ :=
  listMin (drawdowns p lb fee)

/-- `strategy_ret.mean()`: sum divided by length. -/
def meanQ (xs : List ℚ) : ℚ := xs.sum / (xs.length : ℚ)

/-- The square of `strategy_ret.std()`: pandas uses the sample variance
(`ddof=1`), the sum of squared deviations from the mean divided by
`n - 1`. -/
def varSample (xs : List ℚ) : ℚ :=
  (xs.map (fun x => (x - meanQ xs) ^ 2)).sum / ((xs.length : ℚ) - 1)

/-- `strategy_ret.std()`: the square root of the sample variance. -/
noncomputable def sampleStd (xs : List ℚ) : ℝ :=
  Real.sqrt ((varSample xs : ℚ) : ℝ)

/-- Sharpe block of `src/utils.py` lines 44-48: report `0.0` when the
standard deviation is zero (equivalently, when the sample variance is
zero), otherwise `mean / std * sqrt(252)`. -/
noncomputable def sharpeOf (sr : List ℚ) : ℝ :=
  if varSample sr = 0 then 0
  else ((meanQ sr : ℚ) : ℝ) / sampleStd sr * Real.sqrt 252

/-- `equity.iloc[-1]`: the last entry of a series (junk 0 on the empty
list, which the guards rule out before use). -/
def lastD (xs : List ℚ) : ℚ := xs.getLast?.getD 0

/-- CAGR block of `src/utils.py` lines 53-57: `0.0` when the return series
is empty or the final equity is non-positive, otherwise
`equity[-1] ** (252 / len(strategy_ret)) - 1` (a real power, since the
exponent is a true division). -/
noncomputable def cagrOf (sr eqty : List ℚ) : ℝ :=
  if sr.length = 0 ∨ lastD eqty ≤ 0 then 0
  else ((lastD eqty : ℚ) : ℝ) ^ ((252 : ℝ) / (sr.length : ℝ)) - 1

/-- The result dictionary built by `momentum_backtest` once validation has
passed (`src/utils.py` lines 29-68). -/
noncomputable def buildResults (p : List ℚ) (lb : ℕ) (fee : ℚ) : Results :=
  ⟨cagrOf (strategyReturns p lb fee) (equitySeries p lb fee),
   sharpeOf (strategyReturns p lb fee),
   maxDD p lb fee,
   strategyReturns p lb fee,
   equitySeries p lb fee⟩

/-- `momentum_backtest(prices, lookback, fee)` (`src/utils.py` lines
6-68): validate `lookback`, then the series length, then run the
pipeline.  The fee is never validated by this function. -/
noncomputable def momentum_backtest (prices : List ℚ) (lookback : ℤ)
    (fee : ℚ) : Except BTError Results :=
  if lookback ≤ 0 then
    .error (.invalidParameter "Lookback window must be positive")
  else if (prices.length : ℤ) < lookback + 2 then
    .error (.insufficientData "Not enough data points")
  else
    .ok (buildResults prices lookback.toNat fee)

/-- The argument validation of `main` in `src/cli_backtest.py` lines
186-195: the CLI exits before calling the engine unless the window is
positive and the fee is non-negative. -/
def cliAcceptsParams (window : ℤ) (fee : ℚ) : Bool :=
  !(decide (window ≤ 0)) && !(decide (fee < 0))

/-- Recogniser for the `InvalidParameter` outcome. -/
def isInvalidParameter : Except BTError Results → Bool
  | .error (.invalidParameter _) => true
  | _ => false

/-- Recogniser for the `InsufficientData` outcome. -/
def isInsufficientData : Except BTError Results → Bool
  | .error (.insufficientData _) => true
  | _ => false

/-! ### The standalone script `src/backtest.py`

Lines 87-110 of `src/backtest.py` repeat the engine pipeline inline with
`lookback = 3` and `fee = 0.0001`; its CAGR guard only checks for an empty
series (no final-equity sign guard). -/

/-- The strategy-return series of the inline script (`src/backtest.py`
lines 87-91, with the hard-coded window 3 and one-basis-point fee). -/
def script_strategy_ret (p : List ℚ) : List ℚ :=
  strategyReturns p 3 (1 / 10000)

/-- The Sharpe ratio of the inline script (`src/backtest.py` lines
97-101): the same guarded formula as the engine. -/
noncomputable def script_sharpe (p : List ℚ) : ℝ :=
  sharpeOf (script_strategy_ret p)

/-- The equity curve of the inline script (`src/backtest.py` line 103). -/
def script_equity (p : List ℚ) : List ℚ :=
  equitySeries p 3 (1 / 10000)

/-- The CAGR of the inline script (`src/backtest.py` lines 104-108): only
the empty-series guard, no final-equity sign guard. -/
noncomputable def script_cagr (p : List ℚ) : ℝ :=
  if (script_strategy_ret p).length = 0 then 0
  else ((lastD (script_equity p) : ℚ) : ℝ) ^
        ((252 : ℝ) / ((script_strategy_ret p).length : ℝ)) - 1

/-- The max drawdown of the inline script (`src/backtest.py` line 110). -/
def script_mdd (p : List ℚ) : ℚ :=
  listMin (drawdowns p 3 (1 / 10000))

/-! ### Basic indexing lemmas -/

theorem getD_range_map {α : Type} (f : ℕ → α) (n t : ℕ) (d : α) (ht : t < n) :
    ((List.range n).map f).getD t d = f t := by
  simp [List.getD_eq_getElem?_getD, List.getElem?_map, List.getElem?_range, ht]

theorem getD_range_map_ge {α : Type} (f : ℕ → α) (n t : ℕ) (d : α)
    (ht : n ≤ t) : ((List.range n).map f).getD t d = d := by
  rw [List.getD_eq_getElem?_getD, List.getElem?_eq_none (by simpa using ht)]
  rfl

@[simp] theorem pctChange0_length (p : List ℚ) :
    (pctChange0 p).length = p.length := by
  simp [pctChange0]

@[simp] theorem rollingSignal_length (lb : ℕ) (ret : List ℚ) :
    (rollingSignal lb ret).length = ret.length := by
  simp [rollingSignal]

@[simp] theorem positionOf_length (sig : List Bool) :
    (positionOf sig).length = sig.length := by
  simp [positionOf]

@[simp] theorem positionsOf_length (p : List ℚ) (lb : ℕ) :
    (positionsOf p lb).length = p.length := by
  simp [positionsOf]

@[simp] theorem strategyReturns_length (p : List ℚ) (lb : ℕ) (fee : ℚ) :
    (strategyReturns p lb fee).length = p.length := by
  simp [strategyReturns]

@[simp] theorem equitySeries_length (p : List ℚ) (lb : ℕ) (fee : ℚ) :
    (equitySeries p lb fee).length = p.length := by
  simp [equitySeries]

@[simp] theorem drawdowns_length (p : List ℚ) (lb : ℕ) (fee : ℚ) :
    (drawdowns p lb fee).length = p.length := by
  simp [drawdowns]

theorem pctChange0_getD (p : List ℚ) (t : ℕ) (ht : t < p.length) :
    (pctChange0 p).getD t 0 =
      if t = 0 then 0
      else (p.getD t 0 - p.getD (t - 1) 0) / p.getD (t - 1) 0 := by
  unfold pctChange0; exact getD_range_map _ _ _ _ ht

theorem rollingSignal_getD (lb : ℕ) (ret : List ℚ) (t : ℕ)
    (ht : t < ret.length) :
    (rollingSignal lb ret).getD t false =
      if lb ≤ t + 1 then decide (0 < ((ret.drop (t + 1 - lb)).take lb).sum)
      else false := by
  unfold rollingSignal; exact getD_range_map _ _ _ _ ht

theorem positionOf_getD (sig : List Bool) (t : ℕ) (ht : t < sig.length) :
    (positionOf sig).getD t 0 =
      if t = 0 then 0 else if sig.getD (t - 1) false then 1 else 0 := by
  unfold positionOf; exact getD_range_map _ _ _ _ ht

theorem strategyReturns_getD (p : List ℚ) (lb : ℕ) (fee : ℚ) (t : ℕ)
    (ht : t < p.length) :
    (strategyReturns p lb fee).getD t 0 =
      (positionsOf p lb).getD t 0 * (pctChange0 p).getD t 0 -
        fee * (if t = 0 then 0
               else |(positionsOf p lb).getD t 0 -
                     (positionsOf p lb).getD (t - 1) 0|) := by
  unfold strategyReturns; exact getD_range_map _ _ _ _ ht

theorem equitySeries_getD (p : List ℚ) (lb : ℕ) (fee : ℚ) (t : ℕ)
    (ht : t < p.length) :
    (equitySeries p lb fee).getD t 0 =
      (((strategyReturns p lb fee).take (t + 1)).map (fun x => 1 + x)).prod := by
  unfold equitySeries
  exact getD_range_map _ _ _ _ (by simpa using ht)

theorem drawdowns_getD (p : List ℚ) (lb : ℕ) (fee : ℚ) (t : ℕ)
    (ht : t < p.length) :
    (drawdowns p lb fee).getD t 0 =
      (equitySeries p lb fee).getD t 0 /
        listMax ((equitySeries p lb fee).take (t + 1)) - 1 := by
  unfold drawdowns
  exact getD_range_map _ _ _ _ (by simpa using ht)

/-- Unfolding `momentum_backtest` on a successful run: the validations
passed and the result is the pipeline output. -/
theorem momentum_backtest_eq_ok (p : List ℚ) (lb : ℤ) (fee : ℚ)
    (r : Results) :
    momentum_backtest p lb fee = .ok r ↔
      0 < lb ∧ lb + 2 ≤ (p.length : ℤ) ∧ r = buildResults p lb.toNat fee := by
  unfold momentum_backtest
  split
  · rename_i h
    constructor
    · intro hc; cases hc
    · rintro ⟨h1, -, -⟩; omega
  · split
    · rename_i h h'
      constructor
      · intro hc; cases hc
      · rintro ⟨-, h2, -⟩; omega
    · rename_i h h'
      constructor
      · intro hc
        refine ⟨by omega, by omega, ?_⟩
        cases hc; rfl
      · rintro ⟨-, -, rfl⟩; rfl

theorem getD_of_length_le {α : Type} (l : List α) (t : ℕ) (d : α)
    (h : l.length ≤ t) : l.getD t d = d := by
  rw [List.getD_eq_getElem?_getD, List.getElem?_eq_none h]
  rfl

theorem positionsOf_getD_zero (p : List ℚ) (lb : ℕ) (h : 0 < p.length) :
    (positionsOf p lb).getD 0 0 = 0 := by
  unfold positionsOf
  rw [positionOf_getD _ _ (by simpa using h)]
  simp

theorem strategyReturns_getD_zero (p : List ℚ) (lb : ℕ) (fee : ℚ)
    (h : 0 < p.length) : (strategyReturns p lb fee).getD 0 0 = 0 := by
  rw [strategyReturns_getD _ _ _ _ h, positionsOf_getD_zero _ _ h]
  simp

theorem take_one_of_pos {α : Type} [Inhabited α] (l : List α)
    (h : 0 < l.length) : l.take 1 = [l.getD 0 default] := by
  cases l with
  | nil => simp at h
  | cons x xs => simp

theorem strategyReturns_take_one (p : List ℚ) (lb : ℕ) (fee : ℚ)
    (h : 0 < p.length) : (strategyReturns p lb fee).take 1 = [0] := by
  have hl : 0 < (strategyReturns p lb fee).length := by simpa using h
  have := take_one_of_pos (strategyReturns p lb fee) hl
  rw [this]
  have h0 : (strategyReturns p lb fee).getD 0 default = 0 := by
    simpa using strategyReturns_getD_zero p lb fee h
  rw [h0]

theorem equitySeries_getD_zero (p : List ℚ) (lb : ℕ) (fee : ℚ)
    (h : 0 < p.length) : (equitySeries p lb fee).getD 0 0 = 1 := by
  rw [equitySeries_getD _ _ _ _ h, strategyReturns_take_one _ _ _ h]
  simp

theorem equitySeries_getElem_zero (p : List ℚ) (lb : ℕ) (fee : ℚ)
    (h : 0 < p.length) : (equitySeries p lb fee)[0]? = some 1 := by
  have hl : 0 < (equitySeries p lb fee).length := by simpa using h
  have := equitySeries_getD_zero p lb fee h
  rw [List.getD_eq_getElem?_getD] at this
  cases he : (equitySeries p lb fee)[0]? with
  | none => rw [List.getElem?_eq_none_iff] at he; omega
  | some v => rw [he] at this; simpa using congrArg some this

/-! ### Claim theorems -/

/-- C1 (counterexample): on the valid input `prices = [1, 2, 3, 4, 5]`,
`lookback = 3`, `fee = 0`, the engine accepts the input, yet the momentum
signal is already `true` at index `2 = lookback - 1` (the full rolling
window there contains the artificial period-0 return of 0), and the
strategy return at index 3 is `1/3 ≠ 0`, which would be impossible if the
first true signal could only occur at index `lookback = 3`. -/
theorem warmup_claim_counterexample :
    (momentum_backtest [1, 2, 3, 4, 5] 3 0).isOk = true ∧
    (rollingSignal 3 (pctChange0 [1, 2, 3, 4, 5])).getD 2 false = true ∧
    (strategyReturns [1, 2, 3, 4, 5] 3 0).getD 3 0 = 1 / 3 := by
  refine ⟨by norm_num [momentum_backtest, Except.isOk, Except.toBool], ?_, ?_⟩
  · simp [rollingSignal, pctChange0, List.range_succ]
    norm_num
  · norm_num [strategyReturns, positionsOf, positionOf, rollingSignal,
      pctChange0, List.range_succ]

/-- C1 (amended): on every input the engine accepts, the momentum signal is
`false` for the first `lookback - 1` periods (indices `0` through
`lookback - 2`) — the rolling window is under-filled there — and the
position is `0` for the first `lookback` periods (indices `0` through
`lookback - 1`); the first period at which the signal can be true is index
`lookback - 1`, because the artificial period-0 return of 0 counts toward
filling the window. -/
theorem warmup_signal_first_index (p : List ℚ) (lb : ℤ) (fee : ℚ)
    (r : Results) (hr : momentum_backtest p lb fee = .ok r) :
    (∀ t : ℕ, (t : ℤ) + 1 < lb →
      (rollingSignal lb.toNat (pctChange0 p)).getD t false = false) ∧
    (∀ t : ℕ, (t : ℤ) < lb → (positionsOf p lb.toNat).getD t 0 = 0) := by
  obtain ⟨hlb, hlen, -⟩ := (momentum_backtest_eq_ok p lb fee r).mp hr
  have hsig : ∀ t : ℕ, (t : ℤ) + 1 < lb →
      (rollingSignal lb.toNat (pctChange0 p)).getD t false = false := by
    intro t ht
    by_cases hR : t < (pctChange0 p).length
    · rw [rollingSignal_getD _ _ _ hR]
      have : ¬ lb.toNat ≤ t + 1 := by omega
      simp [this]
    · exact getD_of_length_le _ _ _ (by simpa using le_of_not_lt hR)
  refine ⟨hsig, ?_⟩
  intro t ht
  by_cases hP : t < p.length
  · unfold positionsOf
    rw [positionOf_getD _ _ (by simpa using hP)]
    rcases Nat.eq_zero_or_pos t with h0 | h0
    · simp [h0]
    · have hne : t ≠ 0 := by omega
      have hs := hsig (t - 1) (by omega)
      rw [List.getD_eq_getElem?_getD] at hs
      simp [hne, hs]
  · exact getD_of_length_le _ _ _ (by simpa using le_of_not_lt hP)

/-- C1 (amended, witness): concrete instantiation at
`prices = [1, 2, 3, 4, 5]`, `lookback = 3`, `fee = 0`: the signal at index
1 is false and the position at index 2 is 0. -/
theorem warmup_signal_first_index_witness :
    (rollingSignal 3 (pctChange0 [1, 2, 3, 4, 5])).getD 1 false = false ∧
    (positionsOf [1, 2, 3, 4, 5] 3).getD 2 0 = 0 := by
  have h := warmup_signal_first_index [1, 2, 3, 4, 5] 3 0
    (buildResults [1, 2, 3, 4, 5] 3 0) (by norm_num [momentum_backtest]; rfl)
  exact ⟨h.1 1 (by norm_num), h.2 2 (by norm_num)⟩

/-- C2 (counterexample): `momentum_backtest` does not reject a negative
fee: with `prices = [1, 1, 1, 1, 1]`, `lookback = 3` and `fee = -1 < 0`
the call succeeds instead of failing with `InvalidParameter`. -/
theorem negative_fee_accepted :
    (momentum_backtest [1, 1, 1, 1, 1] 3 (-1)).isOk = true ∧
    isInvalidParameter (momentum_backtest [1, 1, 1, 1, 1] 3 (-1)) = false := by
  constructor
  · norm_num [momentum_backtest, Except.isOk, Except.toBool]
  · norm_num [momentum_backtest, isInvalidParameter]

/-- C2 (amended): `momentum_backtest` itself performs no fee validation —
for a negative fee its acceptance behaviour is identical to that with a
zero fee — and fee non-negativity is enforced only by the CLI front end
(`main` in `src/cli_backtest.py`), which rejects `fee < 0` before the
engine is ever called. -/
theorem fee_not_validated_by_engine (p : List ℚ) (lb : ℤ) (fee : ℚ)
    (hfee : fee < 0) :
    (momentum_backtest p lb fee).isOk = (momentum_backtest p lb 0).isOk ∧
    cliAcceptsParams lb fee = false := by
  constructor
  · unfold momentum_backtest
    split
    · rfl
    · split
      · rfl
      · simp [Except.isOk, Except.toBool]
  · simp [cliAcceptsParams, hfee]

/-- C2 (amended, witness): concrete instantiation at
`prices = [1, 1, 1, 1, 1]`, `lookback = 3`, `fee = -1`. -/
theorem fee_not_validated_by_engine_witness :
    (momentum_backtest [1, 1, 1, 1, 1] 3 (-1)).isOk =
      (momentum_backtest [1, 1, 1, 1, 1] 3 0).isOk ∧
    cliAcceptsParams 3 (-1) = false :=
  fee_not_validated_by_engine [1, 1, 1, 1, 1] 3 (-1) (by norm_num)

/-- C3: `momentum_backtest` fails with `InvalidParameter` exactly when
`lookback ≤ 0`; given `lookback > 0`, it fails with `InsufficientData`
exactly when `len(prices) < lookback + 2`; and when both validations pass
(so `lookback + 2` is the minimum accepted length) it raises neither
error. -/
theorem validation_errors_characterized (p : List ℚ) (lb : ℤ) (fee : ℚ) :
    (isInvalidParameter (momentum_backtest p lb fee) = true ↔ lb ≤ 0) ∧
    (0 < lb →
      (isInsufficientData (momentum_backtest p lb fee) = true ↔
        (p.length : ℤ) < lb + 2)) ∧
    (0 < lb → lb + 2 ≤ (p.length : ℤ) →
      (momentum_backtest p lb fee).isOk = true) := by
  unfold momentum_backtest
  split
  · rename_i h
    refine ⟨by simp [isInvalidParameter, h], by omega, by omega⟩
  · rename_i h
    split
    · rename_i h'
      refine ⟨by simp [isInvalidParameter]; omega, ?_, by omega⟩
      intro _
      simp [isInsufficientData]
      omega
    · rename_i h'
      refine ⟨by simp [isInvalidParameter]; omega, ?_, ?_⟩
      · intro _
        simp [isInsufficientData]
        omega
      · intro _ _
        rfl

/-- C3 (witness): with `lookback = 3`, a series of length `4 = lookback+1`
fails with `InsufficientData`, and one of length `5 = lookback + 2` is
accepted. -/
theorem validation_errors_characterized_witness :
    isInsufficientData (momentum_backtest [1, 1, 1, 1] 3 (1 / 10000)) = true ∧
    (momentum_backtest [1, 1, 1, 1, 1] 3 (1 / 10000)).isOk = true := by
  constructor
  · exact ((validation_errors_characterized [1, 1, 1, 1] 3 (1 / 10000)).2.1
      (by norm_num)).mpr (by norm_num)
  · exact (validation_errors_characterized [1, 1, 1, 1, 1] 3 (1 / 10000)).2.2
      (by norm_num) (by norm_num)

/-- C6: on every well-formed input satisfying the spec preconditions
(positive prices, positive lookback, non-negative fee, length at least
`lookback + 2`), the engine succeeds and returns the full pipeline bundle;
in this model every field of that bundle is a well-defined (finite)
rational or real number, and the two validation errors are the only
failure modes of the function. -/
theorem engine_total_on_valid_input (p : List ℚ) (lb : ℤ) (fee : ℚ)
    (hlb : 0 < lb) (hfee : 0 ≤ fee) (hlen : lb + 2 ≤ (p.length : ℤ))
    (hpos : ∀ x ∈ p, 0 < x) :
    momentum_backtest p lb fee = .ok (buildResults p lb.toNat fee) :=
  (momentum_backtest_eq_ok p lb fee _).mpr ⟨hlb, hlen, rfl⟩

/-- C6 (witness): concrete instantiation at the all-ones series of length
5 with `lookback = 3` and a one-basis-point fee. -/
theorem engine_total_on_valid_input_witness :
    momentum_backtest [1, 1, 1, 1, 1] 3 (1 / 10000) =
      .ok (buildResults [1, 1, 1, 1, 1] (Int.toNat 3) (1 / 10000)) :=
  engine_total_on_valid_input [1, 1, 1, 1, 1] 3 (1 / 10000) (by norm_num)
    (by norm_num) (by norm_num) (by intro x hx; fin_cases hx <;> norm_num)

/-- C7: on every accepted input, the returned strategy-return series has
the same length as the price series, and the equity curve starts at
exactly 1 (the first strategy return is 0). -/
theorem returns_length_and_initial_equity (p : List ℚ) (lb : ℤ) (fee : ℚ)
    (r : Results) (hr : momentum_backtest p lb fee = .ok r) :
    r.returns.length = p.length ∧ r.equity[0]? = some 1 := by
  obtain ⟨hlb, hlen, rfl⟩ := (momentum_backtest_eq_ok p lb fee r).mp hr
  have hp : 0 < p.length := by omega
  exact ⟨by simp [buildResults],
    by simpa [buildResults] using equitySeries_getElem_zero p lb.toNat fee hp⟩

/-- C7 (witness): concrete instantiation at the all-ones series of length
5 with `lookback = 3` and a one-basis-point fee. -/
theorem returns_length_and_initial_equity_witness :
    (buildResults [1, 1, 1, 1, 1] (Int.toNat 3) (1 / 10000)).returns.length =
      ([1, 1, 1, 1, 1] : List ℚ).length ∧
    (buildResults [1, 1, 1, 1, 1] (Int.toNat 3) (1 / 10000)).equity[0]? =
      some 1 :=
  returns_length_and_initial_equity [1, 1, 1, 1, 1] 3 (1 / 10000) _
    (by norm_num [momentum_backtest])

/-! ### Minimum / maximum facts for the drawdown metric -/

theorem foldl_min_le_init (xs : List ℚ) (a : ℚ) : xs.foldl min a ≤ a := by
  induction xs generalizing a with
  | nil => exact le_refl a
  | cons x xs ih => exact le_trans (ih (min a x)) (min_le_left a x)

theorem foldl_min_le_of_mem (xs : List ℚ) (a y : ℚ) (h : y ∈ xs) :
    xs.foldl min a ≤ y := by
  induction xs generalizing a with
  | nil => cases h
  | cons x xs ih =>
    rcases List.mem_cons.mp h with rfl | hy
    · exact le_trans (foldl_min_le_init xs (min a y)) (min_le_right a y)
    · exact ih (min a x) hy

theorem foldl_min_mem_or (xs : List ℚ) (a : ℚ) :
    xs.foldl min a = a ∨ xs.foldl min a ∈ xs := by
  induction xs generalizing a with
  | nil => exact Or.inl rfl
  | cons x xs ih =>
    rcases ih (min a x) with h | h
    · rcases min_choice a x with hm | hm
      · exact Or.inl (by rw [List.foldl_cons, h, hm])
      · exact Or.inr (by rw [List.foldl_cons, h, hm]; exact List.mem_cons_self x xs)
    · exact Or.inr (List.mem_cons_of_mem x h)

theorem listMin_le (l : List ℚ) (y : ℚ) (h : y ∈ l) : listMin l ≤ y := by
  cases l with
  | nil => cases h
  | cons x xs =>
    rcases List.mem_cons.mp h with rfl | hy
    · exact foldl_min_le_init xs y
    · exact foldl_min_le_of_mem xs x y hy

theorem listMin_mem (l : List ℚ) (h : l ≠ []) : listMin l ∈ l := by
  cases l with
  | nil => exact absurd rfl h
  | cons x xs =>
    rcases foldl_min_mem_or xs x with h' | h'
    · rw [listMin, h']; exact List.mem_cons_self x xs
    · exact List.mem_cons_of_mem x h'

theorem init_le_foldl_max (xs : List ℚ) (a : ℚ) : a ≤ xs.foldl max a := by
  induction xs generalizing a with
  | nil => exact le_refl a
  | cons x xs ih => exact le_trans (le_max_left a x) (ih (max a x))

theorem mem_le_foldl_max (xs : List ℚ) (a y : ℚ) (h : y ∈ xs) :
    y ≤ xs.foldl max a := by
  induction xs generalizing a with
  | nil => cases h
  | cons x xs ih =>
    rcases List.mem_cons.mp h with rfl | hy
    · exact le_trans (le_max_right a y) (init_le_foldl_max xs (max a y))
    · exact ih (max a x) hy

theorem foldl_max_mem_or (xs : List ℚ) (a : ℚ) :
    xs.foldl max a = a ∨ xs.foldl max a ∈ xs := by
  induction xs generalizing a with
  | nil => exact Or.inl rfl
  | cons x xs ih =>
    rcases ih (max a x) with h | h
    · rcases max_choice a x with hm | hm
      · exact Or.inl (by rw [List.foldl_cons, h, hm])
      · exact Or.inr (by rw [List.foldl_cons, h, hm]; exact List.mem_cons_self x xs)
    · exact Or.inr (List.mem_cons_of_mem x h)

theorem le_listMax (l : List ℚ) (y : ℚ) (h : y ∈ l) : y ≤ listMax l := by
  cases l with
  | nil => cases h
  | cons x xs =>
    rcases List.mem_cons.mp h with rfl | hy
    · exact init_le_foldl_max xs y
    · exact mem_le_foldl_max xs x y hy

theorem listMax_mem (l : List ℚ) (h : l ≠ []) : listMax l ∈ l := by
  cases l with
  | nil => exact absurd rfl h
  | cons x xs =>
    rcases foldl_max_mem_or xs x with h' | h'
    · rw [listMax, h']; exact List.mem_cons_self x xs
    · exact List.mem_cons_of_mem x h'

theorem mem_take_mono {α : Type} (l : List α) (m m' : ℕ) (h : m ≤ m')
    (y : α) (hy : y ∈ l.take m) : y ∈ l.take m' := by
  induction l generalizing m m' with
  | nil => simp at hy
  | cons x xs ih =>
    cases m with
    | zero => simp at hy
    | succ k =>
      cases m' with
      | zero => omega
      | succ k' =>
        rcases List.mem_cons.mp hy with rfl | hy'
        · exact List.mem_cons_self y _
        · exact List.mem_cons_of_mem x (ih k k' (by omega) hy')

theorem listMax_take_mono (l : List ℚ) (m m' : ℕ) (h : m ≤ m')
    (hne : l.take m ≠ []) : listMax (l.take m) ≤ listMax (l.take m') :=
  le_listMax _ _ (mem_take_mono l m m' h _ (listMax_mem _ hne))

/-! ### Equity and drawdown facts -/

theorem getD_mem {α : Type} (l : List α) (t : ℕ) (d : α)
    (ht : t < l.length) : l.getD t d ∈ l := by
  rw [List.getD_eq_getElem l d ht]
  exact List.getElem_mem ht

theorem getD_mem_take {α : Type} (l : List α) (t : ℕ) (d : α)
    (ht : t < l.length) : l.getD t d ∈ l.take (t + 1) := by
  have h1 : t < (l.take (t + 1)).length := by
    simp [List.length_take]; omega
  have h2 : (l.take (t + 1)).getD t d = l.getD t d := by
    rw [List.getD_eq_getElem?_getD, List.getD_eq_getElem?_getD]
    congr 1
    simp [List.getElem?_take, Nat.lt_succ_self]
  rw [← h2]
  exact getD_mem _ _ _ h1

theorem one_mem_equity_take (p : List ℚ) (lb : ℕ) (fee : ℚ) (t : ℕ)
    (hp : 0 < p.length) (ht : t < p.length) :
    (1 : ℚ) ∈ (equitySeries p lb fee).take (t + 1) := by
  have h0 := equitySeries_getD_zero p lb fee hp
  have hm := getD_mem_take (equitySeries p lb fee) 0 0 (by simpa using hp)
  rw [h0] at hm
  exact mem_take_mono _ 1 (t + 1) (by omega) _ hm

theorem equity_le_runningMax (p : List ℚ) (lb : ℕ) (fee : ℚ) (t : ℕ)
    (ht : t < p.length) :
    (equitySeries p lb fee).getD t 0 ≤
      listMax ((equitySeries p lb fee).take (t + 1)) :=
  le_listMax _ _ (getD_mem_take _ _ _ (by simpa using ht))

theorem runningMax_pos (p : List ℚ) (lb : ℕ) (fee : ℚ) (t : ℕ)
    (hp : 0 < p.length) (ht : t < p.length) :
    0 < listMax ((equitySeries p lb fee).take (t + 1)) :=
  lt_of_lt_of_le one_pos (le_listMax _ _ (one_mem_equity_take p lb fee t hp ht))

theorem drawdowns_getD_nonpos (p : List ℚ) (lb : ℕ) (fee : ℚ) (t : ℕ)
    (hp : 0 < p.length) (ht : t < p.length) :
    (drawdowns p lb fee).getD t 0 ≤ 0 := by
  rw [drawdowns_getD p lb fee t ht]
  have hM := runningMax_pos p lb fee t hp ht
  have hle := equity_le_runningMax p lb fee t ht
  have : (equitySeries p lb fee).getD t 0 /
      listMax ((equitySeries p lb fee).take (t + 1)) ≤ 1 :=
    (div_le_one hM).mpr hle
  linarith

theorem drawdowns_mem_nonpos (p : List ℚ) (lb : ℕ) (fee : ℚ) (y : ℚ)
    (hp : 0 < p.length) (hy : y ∈ drawdowns p lb fee) : y ≤ 0 := by
  unfold drawdowns at hy
  rcases List.mem_map.mp hy with ⟨t, htr, rfl⟩
  have ht : t < p.length := by simpa using List.mem_range.mp htr
  have := drawdowns_getD_nonpos p lb fee t hp ht
  rwa [drawdowns_getD p lb fee t ht] at this

theorem maxDD_nonpos (p : List ℚ) (lb : ℕ) (fee : ℚ) (hp : 0 < p.length) :
    maxDD p lb fee ≤ 0 := by
  have hne : drawdowns p lb fee ≠ [] := by
    have : (drawdowns p lb fee).length = p.length := by simp
    intro h
    rw [h] at this
    simp at this
    omega
  exact drawdowns_mem_nonpos p lb fee _ hp (listMin_mem _ hne)

theorem maxDD_zero_nondecreasing (p : List ℚ) (lb : ℕ) (fee : ℚ)
    (hp : 0 < p.length) (h0 : maxDD p lb fee = 0) (t : ℕ)
    (ht : t + 1 < p.length) :
    (equitySeries p lb fee).getD t 0 ≤ (equitySeries p lb fee).getD (t + 1) 0 := by
  have hflat : ∀ s : ℕ, s < p.length →
      (equitySeries p lb fee).getD s 0 =
        listMax ((equitySeries p lb fee).take (s + 1)) := by
    intro s hs
    have hyin : (drawdowns p lb fee).getD s 0 ∈ drawdowns p lb fee :=
      getD_mem (drawdowns p lb fee) s 0 (by simpa using hs)
    have hge : 0 ≤ (drawdowns p lb fee).getD s 0 := by
      have hmin := listMin_le _ _ hyin
      rw [maxDD] at h0
      linarith
    have hle := drawdowns_getD_nonpos p lb fee s hp hs
    have hz : (drawdowns p lb fee).getD s 0 = 0 := le_antisymm hle hge
    rw [drawdowns_getD p lb fee s hs] at hz
    have hM := runningMax_pos p lb fee s hp hs
    have := sub_eq_zero.mp hz
    exact (div_eq_one_iff_eq (ne_of_gt hM)).mp this
  have h1 := hflat t (by omega)
  have h2 := hflat (t + 1) ht
  have hmono : listMax ((equitySeries p lb fee).take (t + 1)) ≤
      listMax ((equitySeries p lb fee).take (t + 2)) := by
    apply listMax_take_mono _ _ _ (by omega)
    intro hc
    have : (1 : ℚ) ∈ (equitySeries p lb fee).take (t + 1) :=
      one_mem_equity_take p lb fee t hp (by omega)
    rw [hc] at this
    cases this
  rw [h1, h2]
  exact hmono

/-- C8: on every accepted input, the reported max drawdown is the minimum
over `t` of `Equity[t] / max(Equity[0..t]) - 1`; it is never positive, and
if it is 0 the equity curve is non-decreasing throughout. -/
theorem max_drawdown_spec (p : List ℚ) (lb : ℤ) (fee : ℚ) (r : Results)
    (hr : momentum_backtest p lb fee = .ok r) :
    r.max_dd = listMin (drawdowns p lb.toNat fee) ∧
    r.max_dd ≤ 0 ∧
    (r.max_dd = 0 → ∀ t : ℕ, t + 1 < r.equity.length →
      r.equity.getD t 0 ≤ r.equity.getD (t + 1) 0) := by
  obtain ⟨hlb, hlen, rfl⟩ := (momentum_backtest_eq_ok p lb fee r).mp hr
  have hp : 0 < p.length := by omega
  refine ⟨rfl, maxDD_nonpos p lb.toNat fee hp, ?_⟩
  intro h0 t ht
  have ht' : t + 1 < p.length := by
    simpa [buildResults] using ht
  exact maxDD_zero_nondecreasing p lb.toNat fee hp h0 t ht'

/-- C8 (witness): concrete instantiation at the all-ones series of length
5 with `lookback = 3` and a one-basis-point fee. -/
theorem max_drawdown_spec_witness :
    (buildResults [1, 1, 1, 1, 1] (Int.toNat 3) (1 / 10000)).max_dd =
      listMin (drawdowns [1, 1, 1, 1, 1] (Int.toNat 3) (1 / 10000)) ∧
    (buildResults [1, 1, 1, 1, 1] (Int.toNat 3) (1 / 10000)).max_dd ≤ 0 := by
  have h := max_drawdown_spec [1, 1, 1, 1, 1] 3 (1 / 10000)
    (buildResults [1, 1, 1, 1, 1] (Int.toNat 3) (1 / 10000))
    (by norm_num [momentum_backtest])
  exact ⟨h.1, h.2.1⟩

/-! ### Prefix determinism of the pipeline (no look-ahead) -/

theorem pctChange0_take_eq (p q : List ℚ) (k : ℕ) (hkp : k ≤ p.length)
    (hkq : k ≤ q.length) (hagree : ∀ i, i < k → p.getD i 0 = q.getD i 0) :
    (pctChange0 p).take k = (pctChange0 q).take k := by
  unfold pctChange0
  rw [← List.map_take, ← List.map_take, List.take_range, List.take_range]
  have hm : min k p.length = k := by omega
  have hm' : min k q.length = k := by omega
  rw [hm, hm']
  apply List.map_congr_left
  intro i hi
  have hik : i < k := List.mem_range.mp hi
  rcases Nat.eq_zero_or_pos i with rfl | hipos
  · simp
  · have hne : i ≠ 0 := by omega
    rw [if_neg hne, if_neg hne, hagree i hik, hagree (i - 1) (by omega)]

/-- C9: the engine's position at period `t` depends only on the prices
strictly before `t`: two price series that agree on all entries with index
`< t` produce the same position at `t` (in particular, perturbing the most
recent price `prices[t]` never changes `Position[t]`). -/
theorem position_no_lookahead (p q : List ℚ) (lb : ℕ) (t : ℕ)
    (hp : t < p.length) (hq : t < q.length)
    (hagree : ∀ i, i < t → p.getD i 0 = q.getD i 0) :
    (positionsOf p lb).getD t 0 = (positionsOf q lb).getD t 0 := by
  unfold positionsOf
  rw [positionOf_getD _ _ (by simpa using hp),
    positionOf_getD _ _ (by simpa using hq)]
  rcases Nat.eq_zero_or_pos t with rfl | htpos
  · simp
  · have hne : t ≠ 0 := by omega
    have hsig : (rollingSignal lb (pctChange0 p)).getD (t - 1) false =
        (rollingSignal lb (pctChange0 q)).getD (t - 1) false := by
      rw [rollingSignal_getD _ _ _ (by simp; omega),
        rollingSignal_getD _ _ _ (by simp; omega)]
      have hsucc : t - 1 + 1 = t := by omega
      rw [hsucc]
      by_cases hlb : lb ≤ t
      · have hsub : t - (t - lb) = lb := by omega
        have e1 : ((pctChange0 p).drop (t - lb)).take lb =
            ((pctChange0 p).take t).drop (t - lb) := by
          have h := List.drop_take t (t - lb) (pctChange0 p)
          rw [hsub] at h
          exact h.symm
        have e2 : ((pctChange0 q).drop (t - lb)).take lb =
            ((pctChange0 q).take t).drop (t - lb) := by
          have h := List.drop_take t (t - lb) (pctChange0 q)
          rw [hsub] at h
          exact h.symm
        rw [e1, e2, pctChange0_take_eq p q t (by omega) (by omega) hagree]
      · simp [hlb]
    rw [hsig]

/-- C9 (witness): concrete instantiation: the all-ones series and the
series that differs from it only at the last index `t = 4` give the same
position at index 4 (with `lookback = 3`). -/
theorem position_no_lookahead_witness :
    (positionsOf [1, 1, 1, 1, 1] 3).getD 4 0 =
      (positionsOf [1, 1, 1, 1, 2] 3).getD 4 0 :=
  position_no_lookahead [1, 1, 1, 1, 1] [1, 1, 1, 1, 2] 3 4 (by norm_num)
    (by norm_num) (by intro i hi; interval_cases i <;> rfl)

/-! ### Variance and flat-series lemmas -/

theorem varSample_nonneg (xs : List ℚ) : 0 ≤ varSample xs := by
  cases xs with
  | nil => simp [varSample, meanQ]
  | cons x l =>
    unfold varSample
    by_cases hd : (((x :: l).length : ℚ) - 1) = 0
    · rw [hd, div_zero]
    · apply div_nonneg
      · apply List.sum_nonneg
        intro y hy
        rcases List.mem_map.mp hy with ⟨z, hz, rfl⟩
        positivity
      · have h1 : 1 ≤ (x :: l).length := by simp
        have h2 : (1 : ℚ) ≤ ((x :: l).length : ℚ) := by exact_mod_cast h1
        linarith

theorem sampleStd_eq_zero_iff (xs : List ℚ) :
    sampleStd xs = 0 ↔ varSample xs = 0 := by
  unfold sampleStd
  rw [Real.sqrt_eq_zero (by exact_mod_cast varSample_nonneg xs)]
  exact_mod_cast Iff.rfl

theorem pctChange0_flat (p : List ℚ) (c : ℚ) (hc : ∀ x ∈ p, x = c) :
    pctChange0 p = List.replicate p.length 0 := by
  unfold pctChange0
  rw [List.eq_replicate_iff]
  refine ⟨by simp, ?_⟩
  intro b hb
  rcases List.mem_map.mp hb with ⟨t, htr, rfl⟩
  have ht : t < p.length := List.mem_range.mp htr
  rcases Nat.eq_zero_or_pos t with rfl | htpos
  · simp
  · have hne : t ≠ 0 := by omega
    rw [if_neg hne]
    have h1 : p.getD t 0 = c := hc _ (getD_mem p t 0 ht)
    have h2 : p.getD (t - 1) 0 = c := hc _ (getD_mem p (t - 1) 0 (by omega))
    rw [h1, h2, sub_self, zero_div]

theorem rollingSignal_replicate_zero (lb n t : ℕ) :
    (rollingSignal lb (List.replicate n (0 : ℚ))).getD t false = false := by
  by_cases ht : t < n
  · rw [rollingSignal_getD _ _ _ (by simpa using ht)]
    simp [List.drop_replicate, List.take_replicate, List.sum_replicate]
  · exact getD_of_length_le _ _ _ (by simpa using le_of_not_lt ht)

theorem positionOf_getD_zero_of_sig_false (sig : List Bool)
    (h : ∀ t, sig.getD t false = false) (t : ℕ) :
    (positionOf sig).getD t 0 = 0 := by
  by_cases ht : t < sig.length
  · rw [positionOf_getD _ _ ht]
    rcases Nat.eq_zero_or_pos t with rfl | htpos
    · simp
    · have hne : t ≠ 0 := by omega
      rw [if_neg hne, h (t - 1)]
      simp
  · exact getD_of_length_le _ _ _ (by simpa using le_of_not_lt ht)

theorem positionsOf_flat (p : List ℚ) (lb : ℕ) (c : ℚ)
    (hc : ∀ x ∈ p, x = c) (t : ℕ) : (positionsOf p lb).getD t 0 = 0 := by
  unfold positionsOf
  rw [pctChange0_flat p c hc]
  exact positionOf_getD_zero_of_sig_false _
    (fun u => rollingSignal_replicate_zero lb p.length u) t

theorem strategyReturns_flat (p : List ℚ) (lb : ℕ) (fee c : ℚ)
    (hc : ∀ x ∈ p, x = c) :
    strategyReturns p lb fee = List.replicate p.length 0 := by
  unfold strategyReturns
  rw [List.eq_replicate_iff]
  refine ⟨by simp, ?_⟩
  intro b hb
  rcases List.mem_map.mp hb with ⟨t, htr, rfl⟩
  rw [positionsOf_flat p lb c hc t, positionsOf_flat p lb c hc (t - 1)]
  simp

theorem meanQ_replicate_zero (n : ℕ) :
    meanQ (List.replicate n (0 : ℚ)) = 0 := by
  simp [meanQ, List.sum_replicate]

theorem varSample_replicate_zero (n : ℕ) :
    varSample (List.replicate n (0 : ℚ)) = 0 := by
  simp [varSample, meanQ, List.sum_replicate, List.map_replicate]

theorem equitySeries_flat_getD (p : List ℚ) (lb : ℕ) (fee c : ℚ)
    (hc : ∀ x ∈ p, x = c) (t : ℕ) (ht : t < p.length) :
    (equitySeries p lb fee).getD t 0 = 1 := by
  rw [equitySeries_getD _ _ _ _ ht, strategyReturns_flat p lb fee c hc]
  simp [List.take_replicate, List.map_replicate, List.prod_replicate]

theorem lastD_equity_flat (p : List ℚ) (lb : ℕ) (fee c : ℚ)
    (hc : ∀ x ∈ p, x = c) (hp : 0 < p.length) :
    lastD (equitySeries p lb fee) = 1 := by
  unfold lastD
  rw [List.getLast?_eq_getElem?]
  have hlen : (equitySeries p lb fee).length = p.length := by simp
  have hlt : p.length - 1 < p.length := by omega
  have h := equitySeries_flat_getD p lb fee c hc (p.length - 1) hlt
  rw [List.getD_eq_getElem?_getD] at h
  rw [hlen]
  exact h

/-- C4: on every accepted input, the reported Sharpe ratio is 0 when the
(sample) standard deviation of the strategy-return series is exactly 0,
and otherwise equals `mean / std * sqrt(252)` with 252 a fixed constant;
in particular a strictly flat positive price series yields both
`sharpe = 0` and `cagr = 0` (no division by zero occurs: the guard fires
exactly when the divisor would vanish). -/
theorem sharpe_guard_spec (p : List ℚ) (lb : ℤ) (fee c : ℚ) (r : Results)
    (hr : momentum_backtest p lb fee = .ok r) :
    (sampleStd r.returns = 0 → r.sharpe = 0) ∧
    (sampleStd r.returns ≠ 0 →
      r.sharpe = ((meanQ r.returns : ℚ) : ℝ) / sampleStd r.returns *
        Real.sqrt 252) ∧
    ((0 < c ∧ ∀ x ∈ p, x = c) → r.sharpe = 0 ∧ r.cagr = 0) := by
  obtain ⟨hlb, hlen, rfl⟩ := (momentum_backtest_eq_ok p lb fee r).mp hr
  have hp : 0 < p.length := by omega
  refine ⟨?_, ?_, ?_⟩
  · intro h
    have hv : varSample (strategyReturns p lb.toNat fee) = 0 :=
      (sampleStd_eq_zero_iff _).mp (by simpa [buildResults] using h)
    simp [buildResults, sharpeOf, hv]
  · intro h
    have hv : varSample (strategyReturns p lb.toNat fee) ≠ 0 := by
      intro hv0
      exact h ((sampleStd_eq_zero_iff _).mpr (by simpa [buildResults] using hv0))
    simp [buildResults, sharpeOf, hv]
  · rintro ⟨hcpos, hflat⟩
    constructor
    · have hv : varSample (strategyReturns p lb.toNat fee) = 0 := by
        rw [strategyReturns_flat p lb.toNat fee c hflat]
        exact varSample_replicate_zero _
      simp [buildResults, sharpeOf, hv]
    · have hlast : lastD (equitySeries p lb.toNat fee) = 1 :=
        lastD_equity_flat p lb.toNat fee c hflat hp
      have hn : ¬ (strategyReturns p lb.toNat fee).length = 0 := by
        simp only [strategyReturns_length]
        omega
      simp [buildResults, cagrOf, hn, hlast, Real.one_rpow]

/-- C4 (witness): concrete instantiation at the strictly flat series
`[1, 1, 1, 1, 1]` with `lookback = 3` and a one-basis-point fee. -/
theorem sharpe_guard_spec_witness :
    (buildResults [1, 1, 1, 1, 1] (Int.toNat 3) (1 / 10000)).sharpe = 0 ∧
    (buildResults [1, 1, 1, 1, 1] (Int.toNat 3) (1 / 10000)).cagr = 0 :=
  (sharpe_guard_spec [1, 1, 1, 1, 1] 3 (1 / 10000) 1
    (buildResults [1, 1, 1, 1, 1] (Int.toNat 3) (1 / 10000))
    (by norm_num [momentum_backtest])).2.2
    ⟨by norm_num, by intro x hx; fin_cases hx <;> rfl⟩

/-- C5: on every accepted input, the reported CAGR is 0 when the
strategy-return series is empty or the final equity value is
non-positive, and otherwise equals
`equity[-1] ** (252 / len(strategyReturns)) - 1`. -/
theorem cagr_guard_spec (p : List ℚ) (lb : ℤ) (fee : ℚ) (r : Results)
    (hr : momentum_backtest p lb fee = .ok r) :
    (r.returns.length = 0 ∨ lastD r.equity ≤ 0 → r.cagr = 0) ∧
    (¬(r.returns.length = 0 ∨ lastD r.equity ≤ 0) →
      r.cagr = ((lastD r.equity : ℚ) : ℝ) ^
        ((252 : ℝ) / (r.returns.length : ℝ)) - 1) := by
  obtain ⟨hlb, hlen, rfl⟩ := (momentum_backtest_eq_ok p lb fee r).mp hr
  constructor
  · intro h
    simp only [buildResults] at h ⊢
    unfold cagrOf
    rw [if_pos h]
  · intro h
    simp only [buildResults] at h ⊢
    unfold cagrOf
    rw [if_neg h]

/-- C5 (witness): concrete instantiation at the strictly flat series
`[1, 1, 1, 1, 1]` with `lookback = 3` and a one-basis-point fee, where the
final equity is 1 and neither guard fires. -/
theorem cagr_guard_spec_witness :
    (buildResults [1, 1, 1, 1, 1] (Int.toNat 3) (1 / 10000)).cagr =
      ((lastD (buildResults [1, 1, 1, 1, 1] (Int.toNat 3) (1 / 10000)).equity :
        ℚ) : ℝ) ^
        ((252 : ℝ) /
          ((buildResults [1, 1, 1, 1, 1] (Int.toNat 3)
            (1 / 10000)).returns.length : ℝ)) - 1 :=
  (cagr_guard_spec [1, 1, 1, 1, 1] 3 (1 / 10000)
    (buildResults [1, 1, 1, 1, 1] (Int.toNat 3) (1 / 10000))
    (by norm_num [momentum_backtest])).2
    (by
      push_neg
      constructor
      · norm_num [buildResults, strategyReturns]
      · norm_num [show Int.toNat 3 = 3 from rfl, buildResults, lastD,
          equitySeries, strategyReturns, positionsOf, positionOf,
          rollingSignal, pctChange0, List.range_succ, List.getLast?])

/-- C10: whenever the engine accepts a price series (with the script's
fixed parameters: lookback 3, fee one basis point) and the final equity is
strictly positive, the inline pipeline of `src/backtest.py` computes
exactly the same CAGR, Sharpe ratio and max drawdown as
`momentum_backtest(prices, 3, 0.0001)`; the positivity hypothesis is
needed because the script's CAGR omits the final-equity sign guard. -/
theorem script_matches_engine (p : List ℚ) (r : Results)
    (hpos : 0 < lastD (script_equity p))
    (hr : momentum_backtest p 3 (1 / 10000) = .ok r) :
    script_cagr p = r.cagr ∧ script_sharpe p = r.sharpe ∧
      script_mdd p = r.max_dd := by
  obtain ⟨hlb, hlen, rfl⟩ := (momentum_backtest_eq_ok p 3 (1 / 10000) r).mp hr
  have h3 : Int.toNat 3 = 3 := rfl
  have hpos' : 0 < lastD (equitySeries p 3 (1 / 10000)) := by
    simpa [script_equity] using hpos
  have hn : ¬ (strategyReturns p 3 (1 / 10000)).length = 0 := by
    simp only [strategyReturns_length]
    omega
  refine ⟨?_, ?_, ?_⟩
  · have hcond : ¬ ((strategyReturns p 3 (1 / 10000)).length = 0 ∨
        lastD (equitySeries p 3 (1 / 10000)) ≤ 0) := by
      push_neg
      exact ⟨hn, hpos'⟩
    simp only [buildResults, h3]
    unfold script_cagr script_strategy_ret script_equity cagrOf
    rw [if_neg (by simpa using hn), if_neg hcond]
  · simp only [buildResults, h3]
    unfold script_sharpe script_strategy_ret
    rfl
  · simp only [buildResults, h3]
    unfold script_mdd maxDD
    rfl

/-- C10 (witness): concrete instantiation at the strictly flat series
`[1, 1, 1, 1, 1]`, whose final equity is 1 > 0. -/
theorem script_matches_engine_witness :
    script_cagr [1, 1, 1, 1, 1] =
      (buildResults [1, 1, 1, 1, 1] (Int.toNat 3) (1 / 10000)).cagr ∧
    script_sharpe [1, 1, 1, 1, 1] =
      (buildResults [1, 1, 1, 1, 1] (Int.toNat 3) (1 / 10000)).sharpe ∧
    script_mdd [1, 1, 1, 1, 1] =
      (buildResults [1, 1, 1, 1, 1] (Int.toNat 3) (1 / 10000)).max_dd :=
  script_matches_engine [1, 1, 1, 1, 1]
    (buildResults [1, 1, 1, 1, 1] (Int.toNat 3) (1 / 10000))
    (by
      norm_num [script_equity, lastD, equitySeries, strategyReturns,
        positionsOf, positionOf, rollingSignal, pctChange0,
        List.range_succ, List.getLast?])
    (by norm_num [momentum_backtest])

end DaxMomentum
